import Mathlib

/-!
# Verification of the graphbolt serialization boundary

Shallow embedding of `src/graphbolt/src/serialize.cc` together with the
archive abstraction it is glued onto (the torch-style archive, the typed
value container, and the `FusedCSCSamplingGraph` Save/Load codec, whose
bodies are not part of the single source file and are therefore modelled
from the specification).  The entry functions `operator>>`, `operator<<`
and `read_from_archive` are translated directly from the source.
-/

namespace GraphboltSerialize

/-- Modelled from the spec: the element datatype tag exposed by the host
numeric-array type (spec section 3, NumericArray dtype). -/
inductive DType where
  | uint8
  | int32
  | int64
  | float32
  | float64

/-- Modelled from the spec: byte width of one element of each datatype,
used by the `NumericArray` length invariant. -/
def dtypeSize : DType → Nat
  | .uint8 => 1
  | .int32 => 4
  | .int64 => 8
  | .float32 => 4
  | .float64 => 8

/-- Modelled from the spec: a homogeneous numeric array with shape and
raw element bytes (spec section 3, NumericArray). -/
structure NumArray where
  dtype : DType
  shape : List Nat
  raw : List Nat

/-- Modelled from the spec: the `NumericArray` invariant
`raw_bytes.length == product(shape) * size_of(dtype)` restricted to the
rank-one arrays the codec transfers. -/
def NumArray.wf (x : NumArray) : Prop :=
  ∃ n, x.shape = [n] ∧ x.raw.length = n * dtypeSize x.dtype

/-- Modelled from the spec: the tagged union over primitives, numeric
arrays and nested records (spec section 3, TypedValue); the origin in the
host runtime is the dynamic any-typed value container (`torch::IValue`),
whose body is not in the source file. -/
inductive TypedValue where
  | bool (b : Bool)
  | int64 (i : Int)
  | float64 (bits : Nat)
  | str (s : String)
  | array (dtype : DType) (shape : List Nat) (raw : List Nat)
  | record (fields : List (String × TypedValue))

/-- View a numeric array as a `TypedValue`. -/
def NumArray.toVal (x : NumArray) : TypedValue :=
  .array x.dtype x.shape x.raw

/-- Modelled from the spec: the error taxonomy of section 7. -/
inductive Err where
  | duplicateKey
  | keyNotFound
  | invalidState
  | typeMismatch
  | unsupportedVersion
  | schemaViolation
deriving DecidableEq

/-- Modelled from the spec: the archive operation mode, fixed at
construction (spec section 3, Archive). -/
inductive ArchiveMode where
  | write
  | read
deriving DecidableEq

/-- Modelled from the spec: an archive is an ordered sequence of
top-level (key, TypedValue) entries plus the fixed operation mode. -/
structure Archive where
  mode : ArchiveMode
  entries : List (String × TypedValue)

/-- First value stored under `key`, in entry order. -/
def lookupEntry : List (String × TypedValue) → String → Option TypedValue
  | [], _ => none
  | (k, v) :: rest, key => if key = k then some v else lookupEntry rest key

/-- Whether some entry carries `key`. -/
def hasKey (es : List (String × TypedValue)) (key : String) : Bool :=
  (lookupEntry es key).isSome

/-- Modelled from the spec: `write` appends an entry; fails with
`DuplicateKey` if the key is already present, with `InvalidState` on a
read-mode archive (spec section 4.2). -/
def Archive.write (a : Archive) (key : String) (v : TypedValue) :
    Except Err Archive :=
  if a.mode = .write then
    if hasKey a.entries key then .error .duplicateKey
    else .ok ⟨a.mode, a.entries ++ [(key, v)]⟩
  else .error .invalidState

/-- Modelled from the spec: `read` looks up by exact key match; fails with
`KeyNotFound` if absent, with `InvalidState` on a write-mode archive; it
has no side effect on the entry sequence, so the post-call archive state
is returned alongside the result (spec sections 4.2 and 8). -/
def Archive.read (a : Archive) (key : String) :
    (Except Err TypedValue) × Archive :=
  (if a.mode = .read then
      match lookupEntry a.entries key with
      | some v => .ok v
      | none => .error .keyNotFound
    else .error .invalidState, a)

/-- Modelled from the spec: an archive created immediately before a Save
call (spec section 3, lifecycle): write mode, no entries yet. -/
def freshWriteArchive : Archive := ⟨.write, []⟩

/-- Modelled from the spec: flushing a written archive and reopening it
as the source of a Load call keeps the entry sequence and flips the mode
(spec section 3, lifecycle). -/
def Archive.flushToRead (a : Archive) : Archive := ⟨.read, a.entries⟩

/-! ## The graph codec (`FusedCSCSamplingGraph.Save` / `Load`)

The codec bodies live outside the single source file; they are modelled
from spec section 4.3: Save writes a fixed, versioned sequence of keys
(version tag, compressed-sparse topology arrays, then optional node-type,
edge-type and attribute fields only when present, absence being encoded
by omitting the key); Load reads the version tag first, then the
topology, then conditionally reads optional fields after checking key
presence. -/

/-- Modelled from the spec: one sampling-graph instance as seen by the
codec — compressed-sparse topology arrays plus optional per-node,
per-edge and attribute-table fields (spec sections 3 and 4.3). -/
structure FusedCSCSamplingGraph where
  rowOffsets : NumArray
  colIndices : NumArray
  nodeTypes : Option NumArray
  edgeTypes : Option NumArray
  attributes : Option (List (String × TypedValue))

/-- Modelled from the spec: the single current schema version tag. -/
def currentVersion : Int := 1

/-- Well-formedness of an optional numeric-array field. -/
def optWf : Option NumArray → Prop
  | none => True
  | some x => x.wf

/-- Modelled from the spec: the graph-side half of the NumericArray
invariant — every numeric array the graph hands to Save satisfies the
`TypedValue` length invariant of spec section 3. -/
def FusedCSCSamplingGraph.wf (g : FusedCSCSamplingGraph) : Prop :=
  g.rowOffsets.wf ∧ g.colIndices.wf ∧ optWf g.nodeTypes ∧ optWf g.edgeTypes

/-- Write an optional field: absence is encoded by omitting the key
entirely, never by a null placeholder (spec section 4.3). -/
def writeOpt (a : Archive) (key : String) : Option TypedValue →
    Except Err Archive
  | none => .ok a
  | some v => a.write key v

/-- Modelled from the spec: `Save(graph, archive)` writes the version
tag, the topology arrays, then the optional fields only if present
(spec section 4.3). -/
def FusedCSCSamplingGraph.Save (g : FusedCSCSamplingGraph) (a : Archive) :
    Except Err Archive := do
  let a ← a.write "version" (.int64 currentVersion)
  let a ← a.write "row_offsets" g.rowOffsets.toVal
  let a ← a.write "col_indices" g.colIndices.toVal
  let a ← writeOpt a "node_types" (g.nodeTypes.map NumArray.toVal)
  let a ← writeOpt a "edge_types" (g.edgeTypes.map NumArray.toVal)
  writeOpt a "attributes" (g.attributes.map TypedValue.record)

/-- Modelled from the spec: extract a numeric array from a stored value,
failing with `TypeMismatch` on a wrong variant and with
`SchemaViolation` when the shape invariant is violated (spec sections
4.1 and 4.3). -/
def asArray : TypedValue → Except Err NumArray
  | .array dt sh raw =>
      match sh with
      | [n] =>
          if raw.length = n * dtypeSize dt then .ok ⟨dt, sh, raw⟩
          else .error .schemaViolation
      | _ => .error .schemaViolation
  | _ => .error .typeMismatch

/-- Conditionally read an optional numeric-array field, checking key
presence before reading (spec section 4.3). -/
def readOptArray (a : Archive) (key : String) :
    Except Err (Option NumArray) :=
  if hasKey a.entries key then do
    let v ← (a.read key).1
    let arr ← asArray v
    pure (some arr)
  else pure none

/-- Modelled from the spec: `Load(graph, archive)` reads the version tag
first and fails with `UnsupportedVersion` when it does not match the
known schema, then reads the topology arrays, then conditionally reads
the optional fields after checking key presence (spec section 4.3).
Load fully overwrites the graph object's fields, so its result is the
reconstructed graph. -/
def FusedCSCSamplingGraph.Load (a : Archive) :
    Except Err FusedCSCSamplingGraph := do
  let v ← (a.read "version").1
  match v with
  | .int64 n =>
      if n = currentVersion then do
        let ro ← asArray (← (a.read "row_offsets").1)
        let ci ← asArray (← (a.read "col_indices").1)
        let nt ← readOptArray a "node_types"
        let et ← readOptArray a "edge_types"
        let attrs ←
          if hasKey a.entries "attributes" then do
            match (← (a.read "attributes").1) with
            | .record fs => pure (some fs)
            | _ => Except.error .typeMismatch
          else pure none
        pure ⟨ro, ci, nt, et, attrs⟩
      else .error .unsupportedVersion
  | _ => .error .unsupportedVersion

/-! ## Entry functions, translated from `src/graphbolt/src/serialize.cc` -/

/-- `operator>>(archive, graph)` from the source: calls
`graph.Load(archive)` and then returns the archive reference; the
caller-visible graph object afterwards holds what Load reconstructed. -/
def streamRead (archive : Archive) (_graph : FusedCSCSamplingGraph) :
    Except Err (Archive × FusedCSCSamplingGraph) := do
  let g ← FusedCSCSamplingGraph.Load archive
  return (archive, g)

/-- `operator<<(archive, graph)` from the source: calls
`graph.Save(archive)` on the const graph reference and then returns the
archive reference. -/
def streamWrite (archive : Archive) (graph : FusedCSCSamplingGraph) :
    Except Err Archive := do
  let archive ← graph.Save archive
  return archive

/-- `operator<<` with the caller-visible graph object threaded through:
the graph is taken by const reference, so the caller's graph state after
the call is the state before it, whether or not Save succeeds. -/
def streamWriteS (archive : Archive) (graph : FusedCSCSamplingGraph) :
    (Except Err Archive) × FusedCSCSamplingGraph :=
  (streamWrite archive graph, graph)

/-- `read_from_archive(archive, key)` from the source: declares a fresh
value, calls `archive.read(key, data)` and returns the value; the
post-call archive state is returned alongside it. -/
def read_from_archive (archive : Archive) (key : String) :
    (Except Err TypedValue) × Archive :=
  archive.read key

/-! ## Helper lemmas -/

/-- Entry list contributed by one optional field. -/
def optEntry (key : String) : Option TypedValue → List (String × TypedValue)
  | none => []
  | some v => [(key, v)]

/-- The exact entry sequence Save produces on a fresh write archive. -/
def savedEntries (g : FusedCSCSamplingGraph) : List (String × TypedValue) :=
  [("version", .int64 currentVersion),
   ("row_offsets", g.rowOffsets.toVal),
   ("col_indices", g.colIndices.toVal)]
  ++ optEntry "node_types" (g.nodeTypes.map NumArray.toVal)
  ++ optEntry "edge_types" (g.edgeTypes.map NumArray.toVal)
  ++ optEntry "attributes" (g.attributes.map TypedValue.record)

theorem save_fresh (g : FusedCSCSamplingGraph) :
    g.Save freshWriteArchive = .ok ⟨.write, savedEntries g⟩ := by
  obtain ⟨ro, ci, nt, et, attrs⟩ := g
  cases nt <;> cases et <;> cases attrs <;> rfl

theorem asArray_toVal (x : NumArray) (h : x.wf) :
    asArray (.array x.dtype x.shape x.raw) = .ok x := by
  obtain ⟨dt, sh, raw⟩ := x
  obtain ⟨n, hsh, hlen⟩ := h
  subst hsh
  simp [asArray, NumArray.toVal, hlen]

theorem load_saved (g : FusedCSCSamplingGraph) (hwf : g.wf) :
    FusedCSCSamplingGraph.Load (Archive.flushToRead ⟨.write, savedEntries g⟩) =
      .ok g := by
  obtain ⟨ro, ci, nt, et, attrs⟩ := g
  obtain ⟨hro, hci, hnt, het⟩ := hwf
  cases nt <;> cases et <;> cases attrs <;>
    simp only [FusedCSCSamplingGraph.Load, savedEntries, optEntry, Option.map,
      Archive.flushToRead, Archive.read, lookupEntry, hasKey, readOptArray,
      currentVersion, NumArray.toVal] <;>
    simp_all [asArray_toVal, optWf, lookupEntry, hasKey,
      NumArray.toVal, Bind.bind, Except.bind, Functor.map, Except.map,
      pure, Except.pure]

theorem lookupEntry_append_self (es : List (String × TypedValue)) (k : String)
    (v : TypedValue) (h : lookupEntry es k = none) :
    lookupEntry (es ++ [(k, v)]) k = some v := by
  induction es with
  | nil => simp [lookupEntry]
  | cons p rest ih =>
      obtain ⟨k', v'⟩ := p
      by_cases hk : k = k'
      · simp [lookupEntry, hk] at h
      · simp only [List.cons_append, lookupEntry, if_neg hk] at h ⊢
        exact ih h

/-! ## Claim theorems -/

/-- Claim C1: saving a graph to a fresh write-mode archive via the codec
and loading from the flushed archive reproduces a structurally equal
graph — topology arrays, optional fields and version tag all match. -/
theorem save_load_roundtrip (g : FusedCSCSamplingGraph) (a : Archive)
    (hwf : g.wf) (hsave : g.Save freshWriteArchive = .ok a) :
    FusedCSCSamplingGraph.Load a.flushToRead = .ok g := by
  rw [save_fresh] at hsave
  cases hsave
  exact load_saved g hwf

/-- Concrete graph used as round-trip witness: 5 nodes, 7 edges, no
optional fields (the scenario of spec section 8). -/
def witnessGraph : FusedCSCSamplingGraph :=
  ⟨⟨.uint8, [6], [0, 0, 2, 3, 5, 7]⟩, ⟨.uint8, [7], [1, 2, 0, 3, 4, 0, 2]⟩,
    none, none, none⟩

theorem save_load_roundtrip_witness :
    FusedCSCSamplingGraph.Load
      (Archive.flushToRead ⟨.write, savedEntries witnessGraph⟩) =
      .ok witnessGraph :=
  save_load_roundtrip witnessGraph ⟨.write, savedEntries witnessGraph⟩
    ⟨⟨6, rfl, rfl⟩, ⟨7, rfl, rfl⟩, trivial, trivial⟩ rfl

/-- Claim C2: the keyed single-value reader returns exactly the value
stored under the key, fails with `KeyNotFound` when the key is absent,
behaves exactly as `Archive.read`, and performs no type checking on the
returned value (the stored value is returned whatever its variant). -/
theorem read_from_archive_spec (a : Archive) (key : String)
    (hm : a.mode = .read) :
    (∀ v, lookupEntry a.entries key = some v →
        read_from_archive a key = (.ok v, a)) ∧
    (lookupEntry a.entries key = none →
        read_from_archive a key = (.error .keyNotFound, a)) ∧
    read_from_archive a key = a.read key := by
  refine ⟨fun v hv => ?_, fun habs => ?_, rfl⟩
  · simp [read_from_archive, Archive.read, hm, hv]
  · simp [read_from_archive, Archive.read, hm, habs]

theorem read_from_archive_spec_witness :
    read_from_archive ⟨.read, [("meta", .int64 5)]⟩ "meta" =
      (.ok (.int64 5), ⟨.read, [("meta", .int64 5)]⟩) :=
  (read_from_archive_spec ⟨.read, [("meta", .int64 5)]⟩ "meta" rfl).1
    (.int64 5) rfl

/-- Claim C3: the stream write entry function invokes the codec's Save
on the graph with the given archive and returns exactly the archive
object Save left behind (the same reference, allowing chaining); any
Save failure is the function's own result. -/
theorem streamWrite_calls_save (archive : Archive)
    (g : FusedCSCSamplingGraph) :
    streamWrite archive g = g.Save archive := by
  unfold streamWrite
  cases g.Save archive <;> rfl

/-- Claim C4: the stream read entry function invokes the codec's Load
with the given archive and, on success, returns the very same archive
paired with the loaded graph state; any Load failure is the function's
own result. -/
theorem streamRead_calls_load (archive : Archive)
    (g : FusedCSCSamplingGraph) :
    streamRead archive g =
      (FusedCSCSamplingGraph.Load archive).map (fun h => (archive, h)) := by
  unfold streamRead
  cases FusedCSCSamplingGraph.Load archive <;> rfl

/-- Claim C5: Load reads the version tag first; whenever the stored tag
is not the current schema tag (wrong number, or not an integer tag at
all), Load fails with `UnsupportedVersion` — for arbitrary other
entries, so no topology data is ever consulted. -/
theorem load_version_gate (a : Archive) (v : TypedValue)
    (hm : a.mode = .read)
    (hv : lookupEntry a.entries "version" = some v)
    (hne : ∀ i : Int, v = .int64 i → i ≠ currentVersion) :
    FusedCSCSamplingGraph.Load a = .error .unsupportedVersion := by
  unfold FusedCSCSamplingGraph.Load
  cases v with
  | int64 i =>
      simp [Archive.read, hm, hv, hne i rfl, Bind.bind, Except.bind]
  | _ => simp [Archive.read, hm, hv, Bind.bind, Except.bind]

theorem load_version_gate_witness :
    FusedCSCSamplingGraph.Load ⟨.read, [("version", .int64 2)]⟩ =
      .error .unsupportedVersion :=
  load_version_gate ⟨.read, [("version", .int64 2)]⟩ (.int64 2) rfl rfl
    (fun i hi => by cases hi; decide)

/-- Claim C6: writing the same key twice to one write-mode archive fails
with `DuplicateKey` on the second write, and the archive produced by the
first write still maps the key to the first value. -/
theorem write_duplicate_key (a a₁ : Archive) (k : String)
    (v₁ v₂ : TypedValue) (h : a.write k v₁ = .ok a₁) :
    a₁.write k v₂ = .error .duplicateKey ∧
    lookupEntry a₁.entries k = some v₁ := by
  unfold Archive.write at h
  split at h
  · next hmode =>
      split at h
      · exact absurd h (by simp)
      · next hdup =>
          cases h
          have hnone : lookupEntry a.entries k = none := by
            have hdup' : ∀ x, ¬ lookupEntry a.entries k = some x := by
              simpa [hasKey, Option.isSome_iff_exists] using hdup
            cases hcase : lookupEntry a.entries k with
            | none => rfl
            | some x => exact absurd hcase (hdup' x)
          have hfound := lookupEntry_append_self a.entries k v₁ hnone
          refine ⟨?_, hfound⟩
          simp [Archive.write, hmode, hasKey, hfound]
  · exact absurd h (by simp)

theorem write_duplicate_key_witness :
    Archive.write ⟨.write, [("k", .bool true)]⟩ "k" (.bool false) =
      .error .duplicateKey ∧
    lookupEntry [("k", .bool true)] "k" = some (.bool true) :=
  write_duplicate_key freshWriteArchive ⟨.write, [("k", .bool true)]⟩ "k"
    (.bool true) (.bool false) rfl

/-- Claim C7: on a read-mode archive, a present key reads back the same
stored value every time — the first read returns it and leaves the
archive state unchanged, so a second read issued afterwards returns a
structurally equal result. -/
theorem read_idempotent (a : Archive) (k : String) (v : TypedValue)
    (hm : a.mode = .read) (hv : lookupEntry a.entries k = some v) :
    (a.read k).1 = .ok v ∧ ((a.read k).2).read k = a.read k := by
  simp [Archive.read, hm, hv]

theorem read_idempotent_witness :
    ((Archive.read ⟨.read, [("x", .str "a")]⟩ "x").1 = .ok (.str "a")) ∧
    ((Archive.read ⟨.read, [("x", .str "a")]⟩ "x").2).read "x" =
      Archive.read ⟨.read, [("x", .str "a")]⟩ "x" :=
  read_idempotent ⟨.read, [("x", .str "a")]⟩ "x" (.str "a") rfl rfl

/-- Claim C8: on a read-mode archive, reading an absent key fails with
`KeyNotFound` and the archive state after the failed read carries the
unmodified entry sequence. -/
theorem read_missing_key (a : Archive) (k : String) (hm : a.mode = .read)
    (habs : lookupEntry a.entries k = none) :
    read_from_archive a k = (.error .keyNotFound, a) ∧
    (read_from_archive a k).2.entries = a.entries := by
  constructor
  · simp [read_from_archive, Archive.read, hm, habs]
  · rfl

theorem read_missing_key_witness :
    read_from_archive ⟨.read, [("x", .bool true)]⟩ "y" =
      (.error .keyNotFound, ⟨.read, [("x", .bool true)]⟩) ∧
    (read_from_archive ⟨.read, [("x", .bool true)]⟩ "y").2.entries =
      [("x", .bool true)] :=
  read_missing_key ⟨.read, [("x", .bool true)]⟩ "y" rfl rfl

/-- Claim C9: each entry function surfaces the failures of the layer it
wraps unchanged — `read_from_archive` fails exactly when `Archive.read`
fails and with the same error, the stream read fails exactly when Load
fails, and the stream write fails exactly when Save fails; no error is
swallowed and no default value is substituted. -/
theorem entry_error_propagation (a : Archive) (k : String)
    (g : FusedCSCSamplingGraph) (e : Err) :
    ((read_from_archive a k).1 = .error e ↔ (a.read k).1 = .error e) ∧
    (streamRead a g = .error e ↔
      FusedCSCSamplingGraph.Load a = .error e) ∧
    (streamWrite a g = .error e ↔ g.Save a = .error e) := by
  refine ⟨Iff.rfl, ?_, ?_⟩
  · unfold streamRead
    cases FusedCSCSamplingGraph.Load a <;>
      simp [Bind.bind, Except.bind, pure, Except.pure]
  · unfold streamWrite
    cases g.Save a <;> simp [Bind.bind, Except.bind, pure, Except.pure]

/-- Claim C10: the stream write entry function takes the graph by const
reference: after the call the caller-visible graph state equals the
state before it, whether Save succeeded or failed, and the archive
result is exactly what Save produced. -/
theorem streamWrite_graph_unchanged (a : Archive)
    (g : FusedCSCSamplingGraph) :
    (streamWriteS a g).2 = g ∧ (streamWriteS a g).1 = g.Save a := by
  refine ⟨rfl, ?_⟩
  unfold streamWriteS streamWrite
  cases g.Save a <;> rfl

end GraphboltSerialize
